import Mathlib

/-!
# Verification of the ts-template setup wizard

Shallow embedding of `setup/setup.ts` (the interactive project-template
scaffolding script) and of the repository's static data, with theorems about
the feature-resolution logic, manifest mutation, file removal, README
generation and prompt cancellation.

Conventions used throughout:
* JS objects read from JSON are modelled as ordered association lists
  `List (String × Js)`; JS object-key insertion order (the order
  `JSON.stringify` serializes, and the order `Object.keys` iterates, for
  non-index keys such as the ones appearing here) is the list order.
* The file system is an ordered association list from paths to file data;
  directories are implicit (a directory exists iff some file lives under it).
* Machine strings are Lean `String`s; no numeric overflow is involved.
-/

set_option autoImplicit false

namespace TsTemplate

/-! ## Association-list primitives (JS object operations) -/

/-- JS indexing `m[k]` on an object: first binding for key `k`, if any. -/
def lookupKey {α : Type} (k : String) : List (String × α) → Option α
  | [] => none
  | (k', v) :: rest => if k' = k then some v else lookupKey k rest

/-- JS assignment `m[k] = v` on an object: overwrite in place if the key exists
(keeping its position), otherwise append the new key at the end. -/
def setKey {α : Type} (k : String) (v : α) : List (String × α) → List (String × α)
  | [] => [(k, v)]
  | (k', v') :: rest => if k' = k then (k, v) :: rest else (k', v') :: setKey k v rest

/-- JS deletion `delete m[k]` on an object (parsed JSON objects have distinct keys, so
filtering every binding of `k` agrees with deleting the one binding). -/
def delKey {α : Type} (k : String) (m : List (String × α)) : List (String × α) :=
  m.filter (fun e => e.1 ≠ k)

/-- The key sequence of a JS object, in insertion order. -/
def keysOf {α : Type} (m : List (String × α)) : List String :=
  m.map (·.1)

/-! ## Feature registry (`FEATURES`, setup.ts lines 35–81) -/

/-- The `interface FeatureConfig` of setup.ts. -/
structure FeatureConfig where
  label : String
  hint : Option String
  files : List String
  devDeps : List String
  scripts : Option (List String)
deriving Repr

/-- The `const FEATURES: Record<string, FeatureConfig>` of setup.ts, with the
declaration (= JS insertion) order of its six entries. -/
def FEATURES : List (String × FeatureConfig) :=
  [ ("gitHooks",
     { label := "Git hooks (Husky + commitlint + lint-staged)"
       hint := some "pre-commit testing, commit message linting"
       files := [".husky", "commitlint.config.js", ".lintstagedrc"]
       devDeps := ["@commitlint/cli", "@commitlint/config-conventional", "husky", "lint-staged"]
       scripts := some ["prepare"] })
  , ("githubTemplates",
     { label := "GitHub issue & PR templates"
       hint := some "bug report, feature request, PR template"
       files := [".github/ISSUE_TEMPLATE", ".github/PULL_REQUEST_TEMPLATE.md"]
       devDeps := []
       scripts := none })
  , ("githubCI",
     { label := "GitHub Actions CI workflow"
       hint := some "automated testing on push/PR"
       files := [".github/workflows"]
       devDeps := []
       scripts := none })
  , ("markdownlint",
     { label := "Markdownlint"
       hint := some "markdown file linting"
       files := [".markdownlint.json", ".markdownlintignore"]
       devDeps := ["markdownlint-cli"]
       scripts := none })
  , ("codeOfConduct",
     { label := "Code of Conduct"
       hint := some "Contributor Covenant"
       files := ["CODE_OF_CONDUCT.md"]
       devDeps := []
       scripts := none })
  , ("claudeCode",
     { label := "Claude Code configuration"
       hint := some "CLAUDE.md with Bun API guidelines"
       files := ["CLAUDE.md"]
       devDeps := []
       scripts := none })
  ]

/-- The key list `Object.keys(FEATURES)`. -/
def featureKeys : List String := FEATURES.map (·.1)

/-- Registry access `FEATURES[key]`; only ever applied to members of `featureKeys`
(as in the source, where `key` ranges over `Object.keys(FEATURES)`). -/
def getFeature (k : String) : FeatureConfig :=
  (lookupKey k FEATURES).getD { label := "", hint := none, files := [], devDeps := [], scripts := none }

/-! ## Resolution engine (setup.ts lines 203–214 and 282–285) -/

/-- The deselected keys, `Object.keys(FEATURES).filter((k) => !selectedFeatures.includes(k))`. -/
def deselectedKeys (sel : List String) : List String :=
  featureKeys.filter (fun k => !sel.contains k)

/-- The `filesToRemove` accumulation loop (`filesToRemove.push(...feature.files)`). -/
def filesLoop (sel : List String) : List String :=
  (deselectedKeys sel).foldl (fun acc k => acc ++ (getFeature k).files) []

/-- The `filesToRemove` list as it stands when `removeFiles(filesToRemove)` runs:
the per-feature loop result, plus `.github` pushed by the cross-feature rule
when both `githubTemplates` and `githubCI` are deselected. -/
def resolveFilesToRemove (sel : List String) : List String :=
  filesLoop sel ++
    (if !sel.contains "githubTemplates" && !sel.contains "githubCI" then [".github"] else [])

/-- The `depsToRemove` accumulation loop. -/
def resolveDepsToRemove (sel : List String) : List String :=
  (deselectedKeys sel).foldl (fun acc k => acc ++ (getFeature k).devDeps) []

/-- The `scriptsToRemove` accumulation loop
(`if (feature.scripts) scriptsToRemove.push(...feature.scripts)`). -/
def resolveScriptsToRemove (sel : List String) : List String :=
  (deselectedKeys sel).foldl (fun acc k => acc ++ ((getFeature k).scripts.getD [])) []

/-! ## JSON values and `JSON.stringify(_, null, gap)` (readPkg / writePkg) -/

/-- JSON values as produced by `JSON.parse`. Objects keep key insertion
order. Numbers are modelled as integers: every numeric literal this tool ever
serializes is integral, and float formatting is outside the embedding. -/
inductive Js where
  | null : Js
  | bool (b : Bool) : Js
  | num (n : Int) : Js
  | str (s : String) : Js
  | arr (xs : List Js) : Js
  | obj (fields : List (String × Js)) : Js
deriving Repr

/-- Hex digit for `\u00XX` escapes (lower case, as ECMA-262 QuoteJSONString). -/
def hexDigit (n : Nat) : Char :=
  if n < 10 then Char.ofNat (48 + n) else Char.ofNat (87 + n)

/-- Escape of one character inside a JSON string literal. -/
def escC (c : Char) : String :=
  if c = '"' then "\\\""
  else if c = '\\' then "\\\\"
  else if c = '\n' then "\\n"
  else if c = '\r' then "\\r"
  else if c = '\t' then "\\t"
  else if c = '\x08' then "\\b"
  else if c = '\x0c' then "\\f"
  else if c.toNat < 32 then "\\u00" ++ String.singleton (hexDigit (c.toNat / 16)) ++ String.singleton (hexDigit (c.toNat % 16))
  else String.singleton c

/-- A JSON string literal: quote, escaped characters, quote. -/
def jsQuote (s : String) : String :=
  "\"" ++ s.data.foldl (fun acc c => acc ++ escC c) "" ++ "\""

mutual

/-- Serialization `JSON.stringify(v, null, gap)`: the text of the value appearing with
current container indentation `ind`; each nesting level adds one copy of
`gap` ( `"\t"` at both stringify call sites of setup.ts). -/
def serJs (gap ind : String) : Js → String
  | .null => "null"
  | .bool b => if b then "true" else "false"
  | .num n => toString n
  | .str s => jsQuote s
  | .arr xs =>
      match xs with
      | [] => "[]"
      | _ :: _ => "[\n" ++ serItems gap (ind ++ gap) xs ++ "\n" ++ ind ++ "]"
  | .obj fs =>
      match fs with
      | [] => "\x7b\x7d"
      | _ :: _ => "\x7b\n" ++ serFields gap (ind ++ gap) fs ++ "\n" ++ ind ++ "\x7d"

/-- Array members, one per line at indentation `ind`, separated by `",\n"`. -/
def serItems (gap ind : String) : List Js → String
  | [] => ""
  | [x] => ind ++ serJs gap ind x
  | x :: y :: zs => ind ++ serJs gap ind x ++ ",\n" ++ serItems gap ind (y :: zs)

/-- Object members `"key": value`, one per line at indentation `ind`,
separated by `",\n"`. -/
def serFields (gap ind : String) : List (String × Js) → String
  | [] => ""
  | [(k, v)] => ind ++ jsQuote k ++ ": " ++ serJs gap ind v
  | (k, v) :: f :: fs => ind ++ jsQuote k ++ ": " ++ serJs gap ind v ++ ",\n" ++ serFields gap ind (f :: fs)

end

/-- The `writePkg` output, `Bun.write(PKG_PATH, JSON.stringify(pkg, null, "\t") + "\n")` —
the exact text written for a manifest object `pkg`. -/
def writePkgText (pkg : List (String × Js)) : String :=
  serJs "\t" "" (.obj pkg) ++ "\n"

/-! ## Answers and the manifest mutator (setup.ts lines 111–230, 291–297) -/

/-- The collected prompt answers (each prompt's accepted value; the version
prompt re-asks until its semver validation passes, so `version` holds a value
the validator accepted). -/
structure AnswerSet where
  description : String
  version : String
  author : String
  license : String
  isPrivate : Bool
  entrypoint : String
  selectedFeatures : List String
deriving Repr

/-- Metadata overwrite block (setup.ts lines 190–196):
seven plain assignments on the manifest object. -/
def setMetadata (a : AnswerSet) (pkg : List (String × Js)) : List (String × Js) :=
  setKey "keywords" (.arr []) <|
  setKey "main" (.str a.entrypoint) <|
  setKey "private" (.bool a.isPrivate) <|
  setKey "license" (.str a.license) <|
  setKey "author" (.str a.author) <|
  setKey "version" (.str a.version) <|
  setKey "description" (.str a.description) pkg

/-- Start-script rewrite, `if (entrypoint !== "src/index.ts" && pkg.scripts) pkg.scripts.start = ...`
(setup.ts lines 199–201). The update happens only when `scripts` holds an
object; a falsy `scripts` value skips the branch (a truthy non-object would
make the strict-mode property assignment throw — no claim concerns that). -/
def setStartScript (a : AnswerSet) (pkg : List (String × Js)) : List (String × Js) :=
  if a.entrypoint ≠ "src/index.ts" then
    match lookupKey "scripts" pkg with
    | some (.obj m) => setKey "scripts" (.obj (setKey "start" (.str ("bun " ++ a.entrypoint)) m)) pkg
    | _ => pkg
  else pkg

/-- devDependencies removal loop (setup.ts lines 217–222): guarded by
`depsToRemove.length > 0 && pkg.devDependencies`; `delete` on a non-object
is a no-op, so only the object case changes the manifest. -/
def removeDevDeps (deps : List String) (pkg : List (String × Js)) : List (String × Js) :=
  if deps.isEmpty then pkg
  else
    match lookupKey "devDependencies" pkg with
    | some (.obj m) =>
        setKey "devDependencies" (.obj (deps.foldl (fun acc d => delKey d acc) m)) pkg
    | _ => pkg

/-- scripts removal loop (setup.ts lines 225–230). -/
def removeScriptEntries (scrs : List String) (pkg : List (String × Js)) : List (String × Js) :=
  if scrs.isEmpty then pkg
  else
    match lookupKey "scripts" pkg with
    | some (.obj m) =>
        setKey "scripts" (.obj (scrs.foldl (fun acc s => delKey s acc) m)) pkg
    | _ => pkg

/-- The cleanup `if (devDeps) delete devDeps["@clack/prompts"]` (setup.ts lines 291–294). -/
def removeClack (pkg : List (String × Js)) : List (String × Js) :=
  match lookupKey "devDependencies" pkg with
  | some (.obj m) => setKey "devDependencies" (.obj (delKey "@clack/prompts" m)) pkg
  | _ => pkg

/-- All in-memory edits applied to the manifest object between `readPkg` and
`writePkg`, in source order: metadata overwrite, start-script rewrite,
devDependencies removal, scripts removal, `@clack/prompts` removal, and the
unconditional `delete pkg["bun-create"]`. (The file-system edits interleaved
with these in `main` touch other files, not the manifest object.) -/
def mutateManifest (a : AnswerSet) (pkg : List (String × Js)) : List (String × Js) :=
  delKey "bun-create" <|
  removeClack <|
  removeScriptEntries (resolveScriptsToRemove a.selectedFeatures) <|
  removeDevDeps (resolveDepsToRemove a.selectedFeatures) <|
  setStartScript a <|
  setMetadata a pkg

/-- The dependency map's entry for `d`: `pkg.devDependencies?.[d]` when
`devDependencies` is an object, absent otherwise. -/
def getDevDep (d : String) (pkg : List (String × Js)) : Option Js :=
  match lookupKey "devDependencies" pkg with
  | some (.obj m) => lookupKey d m
  | _ => none

/-! ## File system and `removeFiles` (setup.ts lines 100–107) -/

/-- On-disk content of one file. Files whose content the script parses as
JSON are carried in structured form (`json`), standing for their serialized
text; plain text files (the CI workflow) are carried as `text`. -/
inductive FileData where
  | text (s : String) : FileData
  | json (v : Js) : FileData
deriving Repr

/-- A file system: paths (relative to the project root) mapped to file data,
directories implicit. An empty directory is not representable, which matches
every property stated here (`rm -rf` and `existsSync` semantics below). -/
def FS := List (String × FileData)

/-- Tests whether `a` is a prefix of `b` (character lists). -/
def listStartsWith : List Char → List Char → Bool
  | [], _ => true
  | _ :: _, [] => false
  | a :: as, b :: bs => a == b && listStartsWith as bs

/-- Coverage: `rm -rf p` reaches file `q`: either `q` is `p` itself, or `q` lies
strictly inside the directory `p`. -/
def covered (p q : String) : Bool :=
  p == q || listStartsWith (p.data ++ ['/']) q.data

/-- Existence check `existsSync(join(PROJECT_DIR, p))`: the path names an existing file or a
non-empty directory. -/
def existsPath (p : String) (fs : FS) : Bool :=
  fs.any (fun e => covered p e.1)

/-- One iteration of the `removeFiles` loop:
`if (existsSync(full)) await $\x7brm -rf full\x7d`. -/
def removeOne (fs : FS) (p : String) : FS :=
  if existsPath p fs then fs.filter (fun e => !covered p e.1) else fs

/-- The loop of `removeFiles(paths)` over its path list. -/
def removeFiles (ps : List String) (fs : FS) : FS :=
  ps.foldl removeOne fs

/-- File write `Bun.write(path, data)`: overwrite in place, or create. -/
def setFile (p : String) (d : FileData) (fs : FS) : FS :=
  setKey p d fs

/-! ## Cross-feature cleanup rules (setup.ts lines 234–285) -/

/-- Shared shape of the three JSON-editing cleanup rules: if the file exists,
`JSON.parse` its text, delete key `k`, and write it back
(`JSON.stringify(_, null, "\t") + "\n"`). A missing file is a no-op; a file
whose content is not JSON makes `JSON.parse` throw, which aborts the run
(`Except.error`). `delete` on a parsed non-object value is a no-op. -/
def editJsonFile (path k : String) (fs : FS) : Except String FS :=
  match lookupKey path fs with
  | none => .ok fs
  | some (.json (.obj m)) => .ok (setFile path (.json (.obj (delKey k m))) fs)
  | some (.json v) => .ok (setFile path (.json v) fs)
  | some (.text _) => .error (path ++ ": JSON.parse failed")

/-- Rule 1 (lines 235–242): markdownlint deselected and gitHooks kept →
drop the `"*.md"` entry of `.lintstagedrc`. -/
def cleanLintStaged (sel : List String) (fs : FS) : Except String FS :=
  if !sel.contains "markdownlint" && sel.contains "gitHooks" then
    editJsonFile ".lintstagedrc" "*.md" fs
  else .ok fs

/-- Rule 2 (lines 245–252): markdownlint deselected →
drop the `"[markdown]"` entry of `.vscode/settings.json`. -/
def cleanVscodeMarkdown (sel : List String) (fs : FS) : Except String FS :=
  if !sel.contains "markdownlint" then
    editJsonFile ".vscode/settings.json" "[markdown]" fs
  else .ok fs

/-- Does the line contain `pat` as a substring? (`.*?pat` of the step regex,
at line granularity). -/
def lineContains (pat : String) (l : String) : Bool :=
  (List.range (l.data.length + 1)).any (fun i => listStartsWith pat.data (l.data.drop i))

/-- Does the line consist of whitespace followed by `pat...`?
(`\n\s*pat` of the step regex, at line granularity). -/
def lineStartsAfterWs (pat : String) (l : String) : Bool :=
  listStartsWith pat.data (l.data.dropWhile (fun c => c == ' ' || c == '\t'))

/-- Drop lines up to and including the first one containing `endPat`. -/
def dropThroughLine (endPat : String) : List String → List String
  | [] => []
  | l :: ls => if lineContains endPat l then ls else dropThroughLine endPat ls

/-- Excise one named workflow step: from the `- name: ...` line matching
`startPat` through the line containing `endPat`. Models the lazy dot-all
regex replacement `ci.replace(/\n\s*startPat.*?endPat\n/s, "\n")` at line
granularity (the matched block is a run of whole lines in `ci.yml`). -/
def removeStep (startPat endPat : String) : List String → List String
  | [] => []
  | l :: ls =>
      if lineStartsAfterWs startPat l then dropThroughLine endPat ls
      else l :: removeStep startPat endPat ls

/-- The two `ci.replace(...)` calls of rule 3 (lines 260–267). -/
def stripCommitlintSteps (s : String) : String :=
  let ls := s.splitOn "\n"
  let ls := removeStep "- name: Validate current commit" "run: bunx commitlint --last --verbose" ls
  let ls := removeStep "- name: Validate PR commits" "--verbose" ls
  String.intercalate "\n" ls

/-- Rule 3 (lines 255–270): gitHooks deselected and githubCI kept → rewrite
`.github/workflows/ci.yml` in place, excising the two commitlint steps.
`Bun.file(...).text()` reads raw text and cannot throw on content, so there
is no error case; the workflow is a text file, and structured content there
is out of the model. -/
def cleanCiWorkflow (sel : List String) (fs : FS) : Except String FS :=
  if !sel.contains "gitHooks" && sel.contains "githubCI" then
    match lookupKey ".github/workflows/ci.yml" fs with
    | none => .ok fs
    | some (.text s) => .ok (setFile ".github/workflows/ci.yml" (.text (stripCommitlintSteps s)) fs)
    | some (.json v) => .ok (setFile ".github/workflows/ci.yml" (.json v) fs)
  else .ok fs

/-- Rule 4 (lines 273–280): githubCI deselected →
drop the `"[github-actions-workflow]"` entry of `.vscode/settings.json`. -/
def cleanVscodeCi (sel : List String) (fs : FS) : Except String FS :=
  if !sel.contains "githubCI" then
    editJsonFile ".vscode/settings.json" "[github-actions-workflow]" fs
  else .ok fs

/-! ## README generator (setup.ts lines 331–393) -/

/-- The commit-convention section pushed by `generateReadme` when the
`gitHooks` feature survived (without the preceding blank separator line). -/
def commitConventionSection : List String :=
  [ "## Commit Convention"
  , ""
  , "This project uses [Conventional Commits](https://www.conventionalcommits.org/)."
  , ""
  , "```text"
  , "feat: add new feature"
  , "fix: resolve bug"
  , "docs: update documentation"
  , "chore: maintenance tasks"
  , "```"
  ]

/-- The `lines` array assembled by `generateReadme(name, description,
features)`, in push order. `description || "A TypeScript project powered by
Bun."` is the JS falsy-default: the empty string picks the default. -/
def readmeLines (name description : String) (features : List String) : List String :=
  [ "# " ++ name
  , ""
  , if description = "" then "A TypeScript project powered by Bun." else description
  , ""
  , "## Stack"
  , ""
  , "- **Runtime:** [Bun](https://bun.sh)"
  , "- **Language:** TypeScript (strict mode)"
  , "- **Linting/Formatting:** [Biome](https://biomejs.dev)"
  ]
  ++ (if features.contains "gitHooks" then ["- **Git Hooks:** Husky + lint-staged + commitlint"] else [])
  ++ (if features.contains "markdownlint" then ["- **Markdown Linting:** markdownlint"] else [])
  ++ [ ""
     , "## Getting Started"
     , ""
     , "```bash"
     , "bun install"
     , "bun start"
     , "```"
     , ""
     , "## Scripts"
     , ""
     , "| Command | Description |"
     , "| --- | --- |"
     , "| `bun start` | Run the project |"
     , "| `bun test` | Run tests |"
     , "| `bun run lint` | Check for lint/format issues |"
     , "| `bun run format` | Fix lint/format issues |"
     ]
  ++ (if features.contains "gitHooks" then "" :: commitConventionSection else [])
  ++ [""]

/-- The text `generateReadme` writes to `README.md`: `lines.join("\n")`. -/
def generateReadme (name description : String) (features : List String) : String :=
  String.intercalate "\n" (readmeLines name description features)

/-! ## Prompt sequence and cancellation (setup.ts lines 85–90, 111–180) -/

/-- The user's reaction to each of the seven prompts, in order;
`none` is the cancellation signal (`isCancel`) at that prompt. -/
structure PromptResponses where
  description : Option String
  version : Option String
  author : Option String
  license : Option String
  isPrivate : Option Bool
  entrypoint : Option String
  features : Option (List String)
deriving Repr

/-- Result of the prompt phase: either `assertNotCancelled` fired —
`cancel(...)` then `process.exit(code)` after `shown` prompts had been
presented — or all seven prompts were answered. -/
inductive PromptOutcome where
  | cancelled (code : Nat) (shown : Nat) : PromptOutcome
  | completed (a : AnswerSet) : PromptOutcome
deriving Repr

/-- The prompt sequence of `main`: each prompt is followed immediately by
`assertNotCancelled`, which calls `process.exit(0)` on the cancellation
signal, so the first `none` terminates the sequence. -/
def collectAnswers (r : PromptResponses) : PromptOutcome :=
  match r.description with
  | none => .cancelled 0 1
  | some d =>
    match r.version with
    | none => .cancelled 0 2
    | some ver =>
      match r.author with
      | none => .cancelled 0 3
      | some au =>
        match r.license with
        | none => .cancelled 0 4
        | some lic =>
          match r.isPrivate with
          | none => .cancelled 0 5
          | some priv =>
            match r.entrypoint with
            | none => .cancelled 0 6
            | some ep =>
              match r.features with
              | none => .cancelled 0 7
              | some feats =>
                  .completed ⟨d, ver, au, lic, priv, ep, feats⟩

/-- Was the `n`-th prompt (1-based) answered rather than cancelled?
(Out-of-range indices count as answered.) -/
def answeredAt (r : PromptResponses) : Nat → Bool
  | 1 => r.description.isSome
  | 2 => r.version.isSome
  | 3 => r.author.isSome
  | 4 => r.license.isSome
  | 5 => r.isPrivate.isSome
  | 6 => r.entrypoint.isSome
  | 7 => r.features.isSome
  | _ => true

/-! ## The apply phase and the whole run (setup.ts lines 182–330) -/

/-- How one run of the script ends. -/
inductive RunOutcome where
  | cancelled (code : Nat) (shown : Nat) : RunOutcome
  | failed (code : Nat) (msg : String) : RunOutcome
  | succeeded : RunOutcome
deriving Repr

/-- Everything `main` does after the prompts, in source order: `readPkg`,
the in-memory manifest edits, the four cross-feature cleanup rules, the
`.github` push plus `removeFiles(filesToRemove)`, the `@clack/prompts` and
`bun-create` deletions, `writePkg`, `removeFiles(["setup"])`, the README
write, and the license-file removal. A thrown error reaches `main().catch`,
which exits with code 1, leaving the file system as it was at the throw; the
`bun install` subprocess and the purely cosmetic prompts/summary output have
no file-system effect and are not modelled. The manifest is stored
structurally; the text `writePkg` produces for it is `writePkgText`. -/
def runPipeline (name : String) (a : AnswerSet) (fs0 : FS) : RunOutcome × FS :=
  match lookupKey "package.json" fs0 with
  | some (.json (.obj pkg)) =>
    match cleanLintStaged a.selectedFeatures fs0 with
    | .error e => (.failed 1 e, fs0)
    | .ok fs1 =>
      match cleanVscodeMarkdown a.selectedFeatures fs1 with
      | .error e => (.failed 1 e, fs1)
      | .ok fs2 =>
        match cleanCiWorkflow a.selectedFeatures fs2 with
        | .error e => (.failed 1 e, fs2)
        | .ok fs3 =>
          match cleanVscodeCi a.selectedFeatures fs3 with
          | .error e => (.failed 1 e, fs3)
          | .ok fs4 =>
            let fs5 := removeFiles (resolveFilesToRemove a.selectedFeatures) fs4
            let fs6 := setFile "package.json" (.json (.obj (mutateManifest a pkg))) fs5
            let fs7 := removeFiles ["setup"] fs6
            let fs8 := setFile "README.md"
              (.text (generateReadme name a.description a.selectedFeatures)) fs7
            let fs9 := if a.license = "UNLICENSED" then removeFiles ["LICENSE"] fs8 else fs8
            (.succeeded, fs9)
  | _ => (.failed 1 "package.json did not parse to an object", fs0)

/-- One whole run: the prompt sequence, then — only when every prompt was
answered — the apply phase. Cancellation exits before `readPkg`, the first
file access of the run. -/
def runSetup (name : String) (r : PromptResponses) (fs : FS) : RunOutcome × FS :=
  match collectAnswers r with
  | .cancelled code shown => (.cancelled code shown, fs)
  | .completed a => runPipeline name a fs

/-! ## Concrete instances used by witnesses and the counterexample -/

/-- Concrete file system for the C6 witness. -/
def fsRemoveW : FS :=
  [(".husky/pre-commit", .text "bun lint-staged"), ("src/index.ts", .text "")]

/-- Responses cancelling at the third prompt (author). -/
def rCancelW : PromptResponses :=
  ⟨some "", some "0.1.0", none, none, none, none, none⟩

/-- Answers for the C7 witness: keep only `gitHooks`. -/
def aDepW : AnswerSet :=
  ⟨"", "0.1.0", "", "MIT", true, "src/index.ts", ["gitHooks"]⟩

/-- Manifest for the C7 witness. -/
def pkgDepW : List (String × Js) :=
  [ ("name", .str "t")
  , ("devDependencies", .obj
      [ ("husky", .str "9.0.0")
      , ("markdownlint-cli", .str "0.39.0")
      , ("@clack/prompts", .str "0.7.0")
      ])
  ]

/-- Join with a separator (used to state the per-member line layout of the
serialized object). -/
def joinSep (sep : String) : List String → String
  | [] => ""
  | [x] => x
  | x :: y :: zs => x ++ sep ++ joinSep sep (y :: zs)

/-- Following the claim's words (refinement reference): a serialization of
the manifest whose indentation unit is two spaces, with trailing newline.
The code's `writePkg` instead passes `"\t"` to `JSON.stringify`
(cf. `writePkgText`). -/
def twoSpacePkgText (pkg : List (String × Js)) : String :=
  serJs "  " "" (.obj pkg) ++ "\n"

/-- Answers used for the C2 counterexample and witness: everything kept. -/
def aSerW : AnswerSet :=
  ⟨"d", "0.1.0", "me", "MIT", true, "src/index.ts",
   ["gitHooks", "githubTemplates", "githubCI", "markdownlint", "codeOfConduct", "claudeCode"]⟩

/-- Manifest used for the C2 counterexample and witness. -/
def pkgSerW : List (String × Js) :=
  [("name", .str "t"), ("devDependencies", .obj [("husky", .str "9.0.0")])]

/-- Answers for the C4 witness: everything but markdownlint kept. -/
def aLintW : AnswerSet :=
  ⟨"", "0.1.0", "", "MIT", true, "src/index.ts",
   ["gitHooks", "githubTemplates", "githubCI", "codeOfConduct", "claudeCode"]⟩

/-- Starting file system for the C4 witness. -/
def fsLintW : FS :=
  [ ("package.json", .json (.obj []))
  , (".lintstagedrc", .json (.obj
      [("*.md", .str "markdownlint"), ("*.ts", .str "biome check")]))
  ]

/-- The guard and edited path of each file-editing cross-feature cleanup
rule (setup.ts lines 235, 245, 255, 273), in source order. (The fifth rule,
line 283, edits no file: it only queues `.github` for removal.) -/
def cleanupEditRules : List ((List String → Bool) × String) :=
  [ (fun sel => !sel.contains "markdownlint" && sel.contains "gitHooks", ".lintstagedrc")
  , (fun sel => !sel.contains "markdownlint", ".vscode/settings.json")
  , (fun sel => !sel.contains "gitHooks" && sel.contains "githubCI", ".github/workflows/ci.yml")
  , (fun sel => !sel.contains "githubCI", ".vscode/settings.json")
  ]

/-! ## Helper lemmas: resolution -/

theorem foldl_push {α β : Type} (f : α → List β) (l : List α) (init : List β) :
    l.foldl (fun acc k => acc ++ f k) init = init ++ l.flatMap f := by
  induction l generalizing init with
  | nil => simp
  | cons x xs ih => simp [ih]

theorem mem_deselectedKeys {sel : List String} {k : String} :
    k ∈ deselectedKeys sel ↔ k ∈ featureKeys ∧ sel.contains k = false := by
  simp [deselectedKeys, List.mem_filter]

theorem filesLoop_eq (sel : List String) :
    filesLoop sel = (deselectedKeys sel).flatMap (fun k => (getFeature k).files) := by
  simpa [filesLoop] using foldl_push (fun k => (getFeature k).files) (deselectedKeys sel) []

theorem mem_resolveFilesToRemove {sel : List String} {p : String} :
    p ∈ resolveFilesToRemove sel ↔
      (∃ k, k ∈ featureKeys ∧ sel.contains k = false ∧ p ∈ (getFeature k).files)
      ∨ (p = ".github" ∧ sel.contains "githubTemplates" = false
          ∧ sel.contains "githubCI" = false) := by
  unfold resolveFilesToRemove
  rw [List.mem_append, filesLoop_eq, List.mem_flatMap]
  constructor
  · rintro (⟨k, hk, hp⟩ | hp)
    · rcases mem_deselectedKeys.mp hk with ⟨h1, h2⟩
      exact Or.inl ⟨k, h1, h2, hp⟩
    · right
      revert hp
      split
      · next hg =>
        intro hp
        rw [List.mem_singleton] at hp
        rcases (Bool.and_eq_true _ _).mp hg with ⟨hA, hB⟩
        rw [Bool.not_eq_true'] at hA hB
        exact ⟨hp, hA, hB⟩
      · intro hp
        exact absurd hp (List.not_mem_nil p)
  · rintro (⟨k, h1, h2, hp⟩ | ⟨rfl, h1, h2⟩)
    · exact Or.inl ⟨k, mem_deselectedKeys.mpr ⟨h1, h2⟩, hp⟩
    · right
      have hg : (!sel.contains "githubTemplates" && !sel.contains "githubCI") = true := by
        rw [h1, h2]; rfl
      rw [if_pos hg]
      exact List.mem_singleton.mpr rfl

/-- Distinct features own disjoint file lists (checked over the registry). -/
theorem feature_files_disjoint :
    ∀ j ∈ featureKeys, ∀ k ∈ featureKeys, j ≠ k →
      ∀ p ∈ (getFeature j).files, p ∉ (getFeature k).files := by decide

/-- No feature's own file list names the shared `.github` parent directory. -/
theorem github_not_feature_file : ∀ k ∈ featureKeys, ".github" ∉ (getFeature k).files := by
  decide

/-! ## C1: resolution's filesToRemove -/

/-- C1: for every selection, `filesToRemove` (as handed to `removeFiles`)
equals the concatenation, over the deselected features in registry order, of
their file lists, followed by the `.github` entry contributed by the
cross-feature rule; and it never contains a file belonging to a selected
feature. -/
theorem resolution_files_exact (sel : List String) :
    resolveFilesToRemove sel
      = (deselectedKeys sel).flatMap (fun k => (getFeature k).files)
        ++ (if !sel.contains "githubTemplates" && !sel.contains "githubCI"
            then [".github"] else [])
    ∧ ∀ p ∈ resolveFilesToRemove sel, ∀ k, k ∈ featureKeys → sel.contains k = true →
        p ∉ (getFeature k).files := by
  constructor
  · unfold resolveFilesToRemove
    rw [filesLoop_eq]
  · intro p hp k hk hsel
    rcases mem_resolveFilesToRemove.mp hp with ⟨j, hj, hjsel, hpj⟩ | ⟨rfl, _, _⟩
    · have hne : j ≠ k := by
        intro h
        rw [h, hsel] at hjsel
        cases hjsel
      exact feature_files_disjoint j hj k hk hne p hpj
    · exact github_not_feature_file k hk

/-- C1 witness: concrete selection keeping only `githubCI`. -/
theorem resolution_files_exact_witness :
    ".markdownlint.json" ∉ (getFeature "githubCI").files :=
  (resolution_files_exact ["githubCI"]).2 ".markdownlint.json" (by decide)
    "githubCI" (by decide) (by decide)

/-! ## C5: the `.github` cross-feature rule -/

/-- C5: `.github` is queued for removal exactly when both `githubTemplates`
and `githubCI` are deselected, although no feature's own file list contains
that directory. -/
theorem github_dir_cross_rule (sel : List String) :
    (sel.contains "githubTemplates" = false → sel.contains "githubCI" = false →
        ".github" ∈ resolveFilesToRemove sel)
    ∧ (sel.contains "githubTemplates" = true ∨ sel.contains "githubCI" = true →
        ".github" ∉ resolveFilesToRemove sel)
    ∧ ∀ k ∈ featureKeys, ".github" ∉ (getFeature k).files := by
  refine ⟨fun h1 h2 => ?_, fun h hmem => ?_, github_not_feature_file⟩
  · exact mem_resolveFilesToRemove.mpr (Or.inr ⟨rfl, h1, h2⟩)
  · rcases mem_resolveFilesToRemove.mp hmem with ⟨j, hj, _, hpj⟩ | ⟨_, h1, h2⟩
    · exact github_not_feature_file j hj hpj
    · rcases h with h | h
      · rw [h1] at h; cases h
      · rw [h2] at h; cases h

/-- C5 witness: with everything deselected the `.github` directory is queued;
with CI kept it is not. -/
theorem github_dir_cross_rule_witness :
    ".github" ∈ resolveFilesToRemove []
    ∧ ".github" ∉ resolveFilesToRemove ["githubCI"] :=
  ⟨(github_dir_cross_rule []).1 (by decide) (by decide),
   (github_dir_cross_rule ["githubCI"]).2.1 (Or.inr (by decide))⟩

/-! ## C6: idempotence of file removal -/

theorem removeOne_eq_filter (fs : FS) (p : String) :
    removeOne fs p = fs.filter (fun e => !covered p e.1) := by
  unfold removeOne
  split
  · rfl
  · next h =>
    rw [Bool.not_eq_true] at h
    refine (List.filter_eq_self.mpr ?_).symm
    intro e he
    have hc := List.any_eq_false.mp h e he
    simpa using hc

theorem removeFiles_eq_filter (ps : List String) (fs : FS) :
    removeFiles ps fs = fs.filter (fun e => !ps.any (fun p => covered p e.1)) := by
  induction ps generalizing fs with
  | nil =>
      simp [removeFiles]
  | cons p ps ih =>
      show removeFiles ps (removeOne fs p) = _
      rw [ih, removeOne_eq_filter, List.filter_filter]
      refine List.filter_congr ?_
      intro e _
      simp [Bool.not_or, Bool.and_comm]

/-- C6: `removeFiles` is idempotent — a second run over the same path list
is a no-op — and a missing path is simply skipped (the `existsSync` guard),
never an error. -/
theorem remove_files_idempotent (ps : List String) (fs : FS) (p : String) :
    removeFiles ps (removeFiles ps fs) = removeFiles ps fs
    ∧ (existsPath p fs = false → removeOne fs p = fs) := by
  constructor
  · rw [removeFiles_eq_filter, removeFiles_eq_filter, List.filter_filter]
    exact List.filter_congr (fun e _ => Bool.and_self _)
  · intro h
    unfold removeOne
    rw [h]
    simp

/-- C6 witness: removing `.husky` twice equals removing it once, and removing
an absent path changes nothing. -/
theorem remove_files_idempotent_witness :
    removeFiles [".husky"] (removeFiles [".husky"] fsRemoveW) = removeFiles [".husky"] fsRemoveW
    ∧ removeOne fsRemoveW "does-not-exist" = fsRemoveW :=
  ⟨(remove_files_idempotent [".husky"] fsRemoveW "does-not-exist").1,
   (remove_files_idempotent [".husky"] fsRemoveW "does-not-exist").2 (by rfl)⟩

/-! ## C3: README generation -/

theorem head_of_hash_append (name : String) : ("# " ++ name).data.head? = some '#' := by
  rw [String.data_append]
  rfl

theorem not_eq_hash_append (s name : String) (hne : s.data.head? ≠ some '#') :
    s ≠ "# " ++ name := by
  intro h
  exact hne (by rw [h]; exact head_of_hash_append name)

/-- When `gitHooks` survived, the README's line list carries the
commit-convention section as a contiguous block. -/
theorem commit_block_present (name desc : String) (features : List String)
    (hg : features.contains "gitHooks" = true) :
    commitConventionSection <:+: readmeLines name desc features := by
  refine ⟨[ "# " ++ name
          , ""
          , if desc = "" then "A TypeScript project powered by Bun." else desc
          , ""
          , "## Stack"
          , ""
          , "- **Runtime:** [Bun](https://bun.sh)"
          , "- **Language:** TypeScript (strict mode)"
          , "- **Linting/Formatting:** [Biome](https://biomejs.dev)"
          , "- **Git Hooks:** Husky + lint-staged + commitlint"
          ]
          ++ (if features.contains "markdownlint" then ["- **Markdown Linting:** markdownlint"] else [])
          ++ [ ""
             , "## Getting Started"
             , ""
             , "```bash"
             , "bun install"
             , "bun start"
             , "```"
             , ""
             , "## Scripts"
             , ""
             , "| Command | Description |"
             , "| --- | --- |"
             , "| `bun start` | Run the project |"
             , "| `bun test` | Run tests |"
             , "| `bun run lint` | Check for lint/format issues |"
             , "| `bun run format` | Fix lint/format issues |"
             , ""
             ], [""], ?_⟩
  have hg' : "gitHooks" ∈ features := by simpa using hg
  simp [readmeLines, hg', commitConventionSection]

/-- When `gitHooks` did not survive, no contiguous run of the README's lines
is the commit-convention section, whatever the project name and description
are. -/
theorem commit_block_absent (name desc : String) (features : List String)
    (hg : features.contains "gitHooks" = false) :
    ¬ commitConventionSection <:+: readmeLines name desc features := by
  intro h
  have hsub := h.subset
  have hg' : "gitHooks" ∉ features := by simpa using hg
  have h1 : "This project uses [Conventional Commits](https://www.conventionalcommits.org/)."
      ∈ readmeLines name desc features := hsub (by simp [commitConventionSection])
  have h2 : "```text" ∈ readmeLines name desc features := hsub (by simp [commitConventionSection])
  cases hmd : features.contains "markdownlint" <;>
    simp [readmeLines, hg', hmd] at h1 h2 <;>
    [skip; skip] <;>
    rcases h1 with h1 | h1
  all_goals try exact not_eq_hash_append _ name (by decide) h1
  all_goals rcases h2 with h2 | h2
  all_goals try exact not_eq_hash_append _ name (by decide) h2
  all_goals exact absurd (h1.trans h2.symm) (by decide)

/-- C3: README generation is deterministic (a pure function of its three
arguments), and the README's lines contain the commit-convention section as
a contiguous block exactly when `gitHooks` is among the surviving features. -/
theorem readme_deterministic_commit_section (name desc : String) (features : List String) :
    generateReadme name desc features = generateReadme name desc features
    ∧ (commitConventionSection <:+: readmeLines name desc features
        ↔ features.contains "gitHooks" = true) := by
  refine ⟨rfl, ⟨fun h => ?_, fun hg => commit_block_present name desc features hg⟩⟩
  cases hgit : features.contains "gitHooks"
  · exact absurd h (commit_block_absent name desc features hgit)
  · rfl

/-! ## C8 / C9: cancellation -/

/-- C8: whenever the prompt phase ends in cancellation, the exit code is 0,
the cancelling prompt is one of the seven, that prompt received the
cancellation signal, and every earlier prompt had been answered — i.e. the
run stopped at the first cancelled prompt and no later prompt ran. -/
theorem prompt_cancellation (r : PromptResponses) (c n : Nat)
    (h : collectAnswers r = .cancelled c n) :
    c = 0 ∧ 1 ≤ n ∧ n ≤ 7 ∧ answeredAt r n = false
    ∧ ∀ m, 1 ≤ m → m < n → answeredAt r m = true := by
  unfold collectAnswers at h
  repeat' split at h
  all_goals first
    | exact PromptOutcome.noConfusion h
    | (injection h with hc hn
       subst hc
       subst hn
       refine ⟨rfl, by omega, by omega, by simp [answeredAt, *], ?_⟩
       intro m hm1 hm2
       interval_cases m <;> simp [answeredAt, *])

/-- C8 witness: cancelling at the author prompt exits with code 0 after
three prompts, the first two having been answered. -/
theorem prompt_cancellation_witness :
    0 = 0 ∧ 1 ≤ 3 ∧ 3 ≤ 7 ∧ answeredAt rCancelW 3 = false
    ∧ ∀ m, 1 ≤ m → m < 3 → answeredAt rCancelW m = true :=
  prompt_cancellation rCancelW 0 3 (by rfl)

/-- C9: the whole prompt sequence precedes `readPkg`, the run's first file
access, so a run that is cancelled at any prompt ends with the file system —
manifest, README and every project file — exactly as it started. -/
theorem cancellation_leaves_fs_unchanged (name : String) (r : PromptResponses) (fs : FS)
    (c n : Nat) (h : collectAnswers r = .cancelled c n) :
    runSetup name r fs = (.cancelled c n, fs) := by
  unfold runSetup
  rw [h]

/-- C9 witness: a concrete cancelled run returns the starting file system. -/
theorem cancellation_leaves_fs_unchanged_witness :
    runSetup "proj" rCancelW fsRemoveW = (.cancelled 0 3, fsRemoveW) :=
  cancellation_leaves_fs_unchanged "proj" rCancelW fsRemoveW 0 3 (by rfl)

/-! ## Helper lemmas: JS object operations -/

theorem lookup_setKey_self {α : Type} (k : String) (v : α) (m : List (String × α)) :
    lookupKey k (setKey k v m) = some v := by
  induction m with
  | nil => simp [setKey, lookupKey]
  | cons e rest ih =>
      obtain ⟨k', v'⟩ := e
      by_cases h : k' = k
      · subst h
        simp [setKey, lookupKey]
      · simp [setKey, lookupKey, h, ih]

theorem lookup_setKey_ne {α : Type} {q k : String} (h : q ≠ k) (v : α)
    (m : List (String × α)) : lookupKey q (setKey k v m) = lookupKey q m := by
  induction m with
  | nil => simp [setKey, lookupKey, Ne.symm h]
  | cons e rest ih =>
      obtain ⟨k', v'⟩ := e
      by_cases hk : k' = k
      · subst hk
        simp [setKey, lookupKey, Ne.symm h]
      · simp [setKey, lookupKey, hk, ih]

theorem delKey_cons_self {α : Type} (k : String) (v : α) (rest : List (String × α)) :
    delKey k ((k, v) :: rest) = delKey k rest := by
  simp [delKey]

theorem delKey_cons_ne {α : Type} {k k' : String} (h : k' ≠ k) (v : α)
    (rest : List (String × α)) :
    delKey k ((k', v) :: rest) = (k', v) :: delKey k rest := by
  simp [delKey, h]

theorem lookup_delKey_self {α : Type} (k : String) (m : List (String × α)) :
    lookupKey k (delKey k m) = none := by
  induction m with
  | nil => simp [delKey, lookupKey]
  | cons e rest ih =>
      obtain ⟨k', v'⟩ := e
      by_cases h : k' = k
      · subst h
        rw [delKey_cons_self]
        exact ih
      · rw [delKey_cons_ne h]
        simp [lookupKey, h, ih]

theorem lookup_delKey_ne {α : Type} {q k : String} (h : q ≠ k)
    (m : List (String × α)) : lookupKey q (delKey k m) = lookupKey q m := by
  induction m with
  | nil => simp [delKey, lookupKey]
  | cons e rest ih =>
      obtain ⟨k', v'⟩ := e
      by_cases hk : k' = k
      · subst hk
        rw [delKey_cons_self]
        simp [lookupKey, Ne.symm h, ih]
      · rw [delKey_cons_ne hk]
        simp [lookupKey, ih]

theorem lookup_delKey_none {α : Type} {d : String} (k : String) {m : List (String × α)}
    (h : lookupKey d m = none) : lookupKey d (delKey k m) = none := by
  by_cases hk : d = k
  · subst hk; exact lookup_delKey_self d m
  · rw [lookup_delKey_ne hk]; exact h

theorem lookup_foldl_delKey_none {α : Type} {d : String} (ds : List String)
    {m : List (String × α)} (h : lookupKey d m = none) :
    lookupKey d (ds.foldl (fun acc x => delKey x acc) m) = none := by
  induction ds generalizing m with
  | nil => exact h
  | cons x xs ih => exact ih (lookup_delKey_none x h)

theorem lookup_foldl_delKey_of_mem {α : Type} {d : String} {ds : List String}
    (m : List (String × α)) (h : d ∈ ds) :
    lookupKey d (ds.foldl (fun acc x => delKey x acc) m) = none := by
  induction ds generalizing m with
  | nil => cases h
  | cons x xs ih =>
      rcases List.mem_cons.mp h with rfl | hmem
      · exact lookup_foldl_delKey_none xs (lookup_delKey_self d m)
      · exact ih (delKey x m) hmem

theorem lookup_foldl_delKey_of_not_mem {α : Type} {d : String} {ds : List String}
    (m : List (String × α)) (h : d ∉ ds) :
    lookupKey d (ds.foldl (fun acc x => delKey x acc) m) = lookupKey d m := by
  induction ds generalizing m with
  | nil => rfl
  | cons x xs ih =>
      have hx : d ≠ x := fun hh => h (hh ▸ List.mem_cons_self x xs)
      have hxs : d ∉ xs := fun hh => h (List.mem_cons_of_mem x hh)
      show lookupKey d (xs.foldl _ (delKey x m)) = _
      rw [ih (delKey x m) hxs, lookup_delKey_ne hx]

/-! ## Helper lemmas: the manifest mutation chain and `devDependencies` -/

theorem lookup_dd_setMetadata (a : AnswerSet) (pkg : List (String × Js)) :
    lookupKey "devDependencies" (setMetadata a pkg) = lookupKey "devDependencies" pkg := by
  unfold setMetadata
  rw [lookup_setKey_ne (by decide), lookup_setKey_ne (by decide),
      lookup_setKey_ne (by decide), lookup_setKey_ne (by decide),
      lookup_setKey_ne (by decide), lookup_setKey_ne (by decide),
      lookup_setKey_ne (by decide)]

theorem lookup_setStartScript_ne (a : AnswerSet) (pkg : List (String × Js)) {q : String}
    (h : q ≠ "scripts") :
    lookupKey q (setStartScript a pkg) = lookupKey q pkg := by
  unfold setStartScript
  split
  · split
    · rw [lookup_setKey_ne h]
    · rfl
  · rfl

theorem lookup_removeScriptEntries_ne (scrs : List String) (pkg : List (String × Js))
    {q : String} (h : q ≠ "scripts") :
    lookupKey q (removeScriptEntries scrs pkg) = lookupKey q pkg := by
  unfold removeScriptEntries
  split
  · rfl
  · split
    · rw [lookup_setKey_ne h]
    · rfl

/-- The `devDependencies` value the mutated manifest ends up with: the
original object filtered of `depsToRemove` and `@clack/prompts`; a missing
or non-object `devDependencies` is untouched. -/
theorem lookup_dd_mutateManifest (a : AnswerSet) (pkg : List (String × Js)) :
    lookupKey "devDependencies" (mutateManifest a pkg)
      = match lookupKey "devDependencies" pkg with
        | some (.obj m) => some (.obj (delKey "@clack/prompts"
            ((resolveDepsToRemove a.selectedFeatures).foldl (fun acc x => delKey x acc) m)))
        | other => other := by
  have h1 : lookupKey "devDependencies" (setStartScript a (setMetadata a pkg))
      = lookupKey "devDependencies" pkg := by
    rw [lookup_setStartScript_ne a _ (by decide), lookup_dd_setMetadata]
  unfold mutateManifest
  rw [lookup_delKey_ne (by decide)]
  cases hdd : lookupKey "devDependencies" pkg with
  | none =>
      have h2 : lookupKey "devDependencies"
          (removeDevDeps (resolveDepsToRemove a.selectedFeatures)
            (setStartScript a (setMetadata a pkg))) = none := by
        unfold removeDevDeps
        split
        · rw [h1]
          exact hdd
        · split
          · next m heq => rw [h1, hdd] at heq; cases heq
          · rw [h1]
            exact hdd
      have h3 : lookupKey "devDependencies"
          (removeScriptEntries (resolveScriptsToRemove a.selectedFeatures)
            (removeDevDeps (resolveDepsToRemove a.selectedFeatures)
              (setStartScript a (setMetadata a pkg)))) = none := by
        rw [lookup_removeScriptEntries_ne _ _ (by decide)]
        exact h2
      unfold removeClack
      split
      · next m heq => rw [heq] at h3; cases h3
      · exact h3
  | some v =>
      have hobj : ∀ (m : List (String × Js)), v = Js.obj m →
          lookupKey "devDependencies"
            (removeScriptEntries (resolveScriptsToRemove a.selectedFeatures)
              (removeDevDeps (resolveDepsToRemove a.selectedFeatures)
                (setStartScript a (setMetadata a pkg))))
          = some (.obj ((resolveDepsToRemove a.selectedFeatures).foldl
              (fun acc x => delKey x acc) m)) := by
        intro m hv
        subst hv
        rw [lookup_removeScriptEntries_ne _ _ (by decide)]
        unfold removeDevDeps
        split
        · next hemp =>
            rw [h1, hdd, List.isEmpty_iff.mp hemp]
            rfl
        · split
          · next m2 heq =>
              rw [h1, hdd] at heq
              cases heq
              rw [lookup_setKey_self]
          · next hno =>
              exact absurd (h1.trans hdd) (hno m)
      have hnotobj : (∀ (m : List (String × Js)), v ≠ Js.obj m) →
          lookupKey "devDependencies"
            (removeScriptEntries (resolveScriptsToRemove a.selectedFeatures)
              (removeDevDeps (resolveDepsToRemove a.selectedFeatures)
                (setStartScript a (setMetadata a pkg)))) = some v := by
        intro hne
        rw [lookup_removeScriptEntries_ne _ _ (by decide)]
        unfold removeDevDeps
        split
        · rw [h1, hdd]
        · split
          · next m2 heq =>
              rw [h1, hdd] at heq
              cases heq
              exact absurd rfl (hne m2)
          · rw [h1, hdd]
      cases v with
      | obj m =>
          have h3 := hobj m rfl
          unfold removeClack
          split
          · next m2 heq =>
              rw [h3] at heq
              cases heq
              rw [lookup_setKey_self]
          · next hno =>
              exact absurd h3 (by
                intro hcontra
                exact hno _ hcontra)
      | null =>
          have h3 := hnotobj (by intro m h; cases h)
          unfold removeClack
          split
          · next m2 heq => rw [h3] at heq; cases heq
          · exact h3
      | bool b =>
          have h3 := hnotobj (by intro m h; cases h)
          unfold removeClack
          split
          · next m2 heq => rw [h3] at heq; cases heq
          · exact h3
      | num n =>
          have h3 := hnotobj (by intro m h; cases h)
          unfold removeClack
          split
          · next m2 heq => rw [h3] at heq; cases heq
          · exact h3
      | str s =>
          have h3 := hnotobj (by intro m h; cases h)
          unfold removeClack
          split
          · next m2 heq => rw [h3] at heq; cases heq
          · exact h3
      | arr xs =>
          have h3 := hnotobj (by intro m h; cases h)
          unfold removeClack
          split
          · next m2 heq => rw [h3] at heq; cases heq
          · exact h3

/-! ## C7: dependency removal in the manifest -/

theorem mem_resolveDepsToRemove {sel : List String} {d : String} :
    d ∈ resolveDepsToRemove sel ↔
      ∃ k, k ∈ featureKeys ∧ sel.contains k = false ∧ d ∈ (getFeature k).devDeps := by
  unfold resolveDepsToRemove
  rw [foldl_push, List.nil_append, List.mem_flatMap]
  constructor
  · rintro ⟨k, hk, hd⟩
    rcases mem_deselectedKeys.mp hk with ⟨h1, h2⟩
    exact ⟨k, h1, h2, hd⟩
  · rintro ⟨k, h1, h2, hd⟩
    exact ⟨k, mem_deselectedKeys.mpr ⟨h1, h2⟩, hd⟩

/-- Distinct features require disjoint dependency sets (checked over the
registry). -/
theorem feature_deps_disjoint :
    ∀ j ∈ featureKeys, ∀ k ∈ featureKeys, j ≠ k →
      ∀ d ∈ (getFeature j).devDeps, d ∉ (getFeature k).devDeps := by decide

/-- No feature owns the setup-only `@clack/prompts` dependency. -/
theorem feature_dep_not_clack :
    ∀ k ∈ featureKeys, ∀ d ∈ (getFeature k).devDeps, d ≠ "@clack/prompts" := by decide

/-- C7: after manifest mutation, no name in `depsToRemove` survives in the
dependency map, and the dependency-map entry of every dependency owned by a
still-selected feature is untouched. -/
theorem manifest_dependency_removal (a : AnswerSet) (pkg : List (String × Js)) :
    (∀ d ∈ resolveDepsToRemove a.selectedFeatures,
        getDevDep d (mutateManifest a pkg) = none)
    ∧ (∀ k, k ∈ featureKeys → a.selectedFeatures.contains k = true →
        ∀ d ∈ (getFeature k).devDeps,
          getDevDep d (mutateManifest a pkg) = getDevDep d pkg) := by
  constructor
  · intro d hd
    unfold getDevDep
    rw [lookup_dd_mutateManifest]
    cases hdd : lookupKey "devDependencies" pkg with
    | none => rfl
    | some v =>
        cases v with
        | obj m => exact lookup_delKey_none _ (lookup_foldl_delKey_of_mem m hd)
        | null => rfl
        | bool b => rfl
        | num n => rfl
        | str s => rfl
        | arr xs => rfl
  · intro k hk hsel d hd
    have hdnotdel : d ∉ resolveDepsToRemove a.selectedFeatures := by
      intro hmem
      rcases mem_resolveDepsToRemove.mp hmem with ⟨j, hj, hjsel, hdj⟩
      have hne : j ≠ k := by
        intro h
        rw [h, hsel] at hjsel
        cases hjsel
      exact feature_deps_disjoint j hj k hk hne d hdj hd
    have hclack : d ≠ "@clack/prompts" := feature_dep_not_clack k hk d hd
    unfold getDevDep
    rw [lookup_dd_mutateManifest]
    cases hdd : lookupKey "devDependencies" pkg with
    | none => rfl
    | some v =>
        cases v with
        | obj m =>
            show lookupKey d (delKey "@clack/prompts"
              ((resolveDepsToRemove a.selectedFeatures).foldl (fun acc x => delKey x acc) m))
              = lookupKey d m
            rw [lookup_delKey_ne hclack, lookup_foldl_delKey_of_not_mem m hdnotdel]
        | null => rfl
        | bool b => rfl
        | num n => rfl
        | str s => rfl
        | arr xs => rfl

/-- C7 witness: the deselected markdownlint dependency is gone, the kept
gitHooks dependency is untouched. -/
theorem manifest_dependency_removal_witness :
    getDevDep "markdownlint-cli" (mutateManifest aDepW pkgDepW) = none
    ∧ getDevDep "husky" (mutateManifest aDepW pkgDepW) = getDevDep "husky" pkgDepW :=
  ⟨(manifest_dependency_removal aDepW pkgDepW).1 "markdownlint-cli" (by decide),
   (manifest_dependency_removal aDepW pkgDepW).2 "gitHooks" (by decide) (by decide)
     "husky" (by decide)⟩

/-! ## C2: manifest serialization -/

theorem lookup_some_mem {α : Type} {k : String} {v : α} {m : List (String × α)}
    (h : lookupKey k m = some v) : k ∈ keysOf m := by
  induction m with
  | nil => cases h
  | cons e rest ih =>
      obtain ⟨k', v'⟩ := e
      by_cases hk : k' = k
      · simp [keysOf, hk]
      · rw [lookupKey, if_neg hk] at h
        simp [keysOf] at ih ⊢
        exact Or.inr (ih h)

theorem keysOf_cons {α : Type} (k' : String) (v' : α) (rest : List (String × α)) :
    keysOf ((k', v') :: rest) = k' :: keysOf rest := rfl

theorem keysOf_setKey_of_mem {α : Type} {k : String} (v : α) {p : List (String × α)}
    (h : k ∈ keysOf p) : keysOf (setKey k v p) = keysOf p := by
  induction p with
  | nil => cases h
  | cons e rest ih =>
      obtain ⟨k', v'⟩ := e
      by_cases hk : k' = k
      · subst hk
        simp [setKey, keysOf_cons]
      · rw [keysOf_cons] at h
        have h' : k ∈ keysOf rest := by
          rcases List.mem_cons.mp h with hh | hh
          · exact absurd hh.symm hk
          · exact hh
        rw [show setKey k v ((k', v') :: rest) = (k', v') :: setKey k v rest from by
              simp [setKey, hk],
            keysOf_cons, keysOf_cons, ih h']

theorem keysOf_setKey_of_not_mem {α : Type} {k : String} (v : α) {p : List (String × α)}
    (h : k ∉ keysOf p) : keysOf (setKey k v p) = keysOf p ++ [k] := by
  induction p with
  | nil => simp [setKey, keysOf]
  | cons e rest ih =>
      obtain ⟨k', v'⟩ := e
      rw [keysOf_cons] at h
      have h1 : k' ≠ k := by
        intro hh
        exact h (by rw [hh]; exact List.mem_cons_self _ _)
      have h2 : k ∉ keysOf rest := fun hh => h (List.mem_cons_of_mem _ hh)
      rw [show setKey k v ((k', v') :: rest) = (k', v') :: setKey k v rest from by
            simp [setKey, h1],
          keysOf_cons, ih h2, keysOf_cons]
      rfl

theorem keysOf_delKey_sublist {α : Type} (k : String) (m : List (String × α)) :
    (keysOf (delKey k m)).Sublist (keysOf m) :=
  List.Sublist.map _ (List.filter_sublist m)

/-- One `setKey` step keeps the original keys present and keeps the
surviving original keys in their original relative order. -/
theorem setKey_inv {α : Type} (k : String) (v : α) {m p : List (String × α)}
    (h1 : ∀ q, q ∈ keysOf m → q ∈ keysOf p)
    (h2 : ((keysOf p).filter (fun q => (keysOf m).contains q)).Sublist (keysOf m)) :
    (∀ q, q ∈ keysOf m → q ∈ keysOf (setKey k v p))
    ∧ ((keysOf (setKey k v p)).filter (fun q => (keysOf m).contains q)).Sublist (keysOf m) := by
  by_cases hk : k ∈ keysOf p
  · rw [keysOf_setKey_of_mem v hk]
    exact ⟨h1, h2⟩
  · rw [keysOf_setKey_of_not_mem v hk]
    constructor
    · intro q hq
      exact List.mem_append_left _ (h1 q hq)
    · rw [List.filter_append]
      have hkm : k ∉ keysOf m := fun hmem => hk (h1 k hmem)
      have hnil : ([k].filter (fun q => (keysOf m).contains q)) = [] := by
        simp [hkm]
      rw [hnil, List.append_nil]
      exact h2

theorem keysOf_setStartScript (a : AnswerSet) (p : List (String × Js)) :
    keysOf (setStartScript a p) = keysOf p := by
  unfold setStartScript
  split
  · split
    · next m heq => exact keysOf_setKey_of_mem _ (lookup_some_mem heq)
    · rfl
  · rfl

theorem keysOf_removeDevDeps (deps : List String) (p : List (String × Js)) :
    keysOf (removeDevDeps deps p) = keysOf p := by
  unfold removeDevDeps
  split
  · rfl
  · split
    · next m heq => exact keysOf_setKey_of_mem _ (lookup_some_mem heq)
    · rfl

theorem keysOf_removeScriptEntries (scrs : List String) (p : List (String × Js)) :
    keysOf (removeScriptEntries scrs p) = keysOf p := by
  unfold removeScriptEntries
  split
  · rfl
  · split
    · next m heq => exact keysOf_setKey_of_mem _ (lookup_some_mem heq)
    · rfl

theorem keysOf_removeClack (p : List (String × Js)) :
    keysOf (removeClack p) = keysOf p := by
  unfold removeClack
  split
  · next m heq => exact keysOf_setKey_of_mem _ (lookup_some_mem heq)
  · rfl

/-- The keys of the mutated manifest that already existed in the manifest as
read appear in their original relative order (the mutator only overwrites in
place, appends fresh keys at the end, and deletes). -/
theorem keys_filter_mutate_sublist (a : AnswerSet) (pkg : List (String × Js)) :
    ((keysOf (mutateManifest a pkg)).filter
        (fun q => (keysOf pkg).contains q)).Sublist (keysOf pkg) := by
  have base1 : ∀ q, q ∈ keysOf pkg → q ∈ keysOf pkg := fun _ h => h
  have base2 : ((keysOf pkg).filter (fun q => (keysOf pkg).contains q)).Sublist (keysOf pkg) :=
    List.filter_sublist _
  have s1 := setKey_inv "description" (Js.str a.description) base1 base2
  have s2 := setKey_inv "version" (Js.str a.version) s1.1 s1.2
  have s3 := setKey_inv "author" (Js.str a.author) s2.1 s2.2
  have s4 := setKey_inv "license" (Js.str a.license) s3.1 s3.2
  have s5 := setKey_inv "private" (Js.bool a.isPrivate) s4.1 s4.2
  have s6 := setKey_inv "main" (Js.str a.entrypoint) s5.1 s5.2
  have s7 := setKey_inv "keywords" (Js.arr []) s6.1 s6.2
  have hmeta : ((keysOf (setMetadata a pkg)).filter
      (fun q => (keysOf pkg).contains q)).Sublist (keysOf pkg) := s7.2
  have hkeep : keysOf (removeClack (removeScriptEntries (resolveScriptsToRemove a.selectedFeatures)
      (removeDevDeps (resolveDepsToRemove a.selectedFeatures)
        (setStartScript a (setMetadata a pkg))))) = keysOf (setMetadata a pkg) := by
    rw [keysOf_removeClack, keysOf_removeScriptEntries, keysOf_removeDevDeps,
        keysOf_setStartScript]
  have hdel := keysOf_delKey_sublist "bun-create"
    (removeClack (removeScriptEntries (resolveScriptsToRemove a.selectedFeatures)
      (removeDevDeps (resolveDepsToRemove a.selectedFeatures)
        (setStartScript a (setMetadata a pkg)))))
  rw [hkeep] at hdel
  exact List.Sublist.trans (List.Sublist.filter _ hdel) hmeta

theorem serFields_eq_joinSep (gap ind : String) :
    ∀ (fs : List (String × Js)), fs ≠ [] →
      serFields gap ind fs
        = joinSep ",\n" (fs.map (fun e => ind ++ jsQuote e.1 ++ ": " ++ serJs gap ind e.2)) := by
  intro fs
  induction fs with
  | nil => intro h; exact absurd rfl h
  | cons e rest ih =>
      intro _
      obtain ⟨k, v⟩ := e
      cases rest with
      | nil => rfl
      | cons f rest2 =>
          show ind ++ jsQuote k ++ ": " ++ serJs gap ind v ++ ",\n"
              ++ serFields gap ind (f :: rest2) = _
          rw [ih (List.cons_ne_nil f rest2)]
          rfl

/-- C2 (amended): after the Manifest Mutator's edits the manifest is
serialized with the key ordering from the read preserved among surviving
keys, every top-level member on its own line indented by one tab (the
serializer's indentation unit is a tab, one per nesting level), and a
trailing newline. -/
theorem manifest_serialization (a : AnswerSet) (pkg : List (String × Js)) :
    ((keysOf (mutateManifest a pkg)).filter
        (fun q => (keysOf pkg).contains q)).Sublist (keysOf pkg)
    ∧ (∃ body, writePkgText (mutateManifest a pkg) = body ++ "\n")
    ∧ (∀ k v fs, mutateManifest a pkg = (k, v) :: fs →
        writePkgText (mutateManifest a pkg)
          = "\x7b\n"
            ++ joinSep ",\n" (((k, v) :: fs).map
                (fun e => "\t" ++ jsQuote e.1 ++ ": " ++ serJs "\t" "\t" e.2))
            ++ "\n\x7d\n") := by
  refine ⟨keys_filter_mutate_sublist a pkg, ⟨serJs "\t" "" (.obj (mutateManifest a pkg)), rfl⟩, ?_⟩
  intro k v fs h
  rw [h]
  show serJs "\t" "" (.obj ((k, v) :: fs)) ++ "\n" = _
  rw [show serJs "\t" "" (.obj ((k, v) :: fs))
        = "\x7b\n" ++ serFields "\t" "\t" ((k, v) :: fs) ++ "\n" ++ "" ++ "\x7d" from rfl]
  rw [serFields_eq_joinSep "\t" "\t" ((k, v) :: fs) (List.cons_ne_nil _ _)]
  simp [String.append_assoc]

/-- C2 counterexample: on a concrete manifest, the text the Manifest Mutator
writes is tab-indented (one tab per nesting level, as exhibited literally),
and it is not the two-space-indented serialization of the same mutated
object — the claim's "two-space-equivalent indentation" does not hold of the
code, which passes a tab to `JSON.stringify`. -/
theorem manifest_serialization_two_space_counterexample :
    writePkgText (mutateManifest aSerW pkgSerW)
      = "\x7b\n\t\"name\": \"t\",\n\t\"devDependencies\": \x7b\n\t\t\"husky\": \"9.0.0\"\n\t\x7d,\n\t\"description\": \"d\",\n\t\"version\": \"0.1.0\",\n\t\"author\": \"me\",\n\t\"license\": \"MIT\",\n\t\"private\": true,\n\t\"main\": \"src/index.ts\",\n\t\"keywords\": []\n\x7d\n"
    ∧ writePkgText (mutateManifest aSerW pkgSerW)
        ≠ twoSpacePkgText (mutateManifest aSerW pkgSerW) := by
  exact ⟨by rfl, by decide⟩

/-- C2 witness: the serialized-shape clause of `manifest_serialization`
applied at a concrete manifest. -/
theorem manifest_serialization_witness :
    writePkgText (mutateManifest aSerW pkgSerW)
      = "\x7b\n"
        ++ joinSep ",\n"
            ((("name", Js.str "t")
              :: ("devDependencies", Js.obj [("husky", Js.str "9.0.0")])
              :: ("description", Js.str "d")
              :: ("version", Js.str "0.1.0")
              :: ("author", Js.str "me")
              :: ("license", Js.str "MIT")
              :: ("private", Js.bool true)
              :: ("main", Js.str "src/index.ts")
              :: ("keywords", Js.arr [])
              :: ([] : List (String × Js))).map
              (fun e => "\t" ++ jsQuote e.1 ++ ": " ++ serJs "\t" "\t" e.2))
        ++ "\n\x7d\n" :=
  (manifest_serialization aSerW pkgSerW).2.2 "name" (Js.str "t")
    [ ("devDependencies", Js.obj [("husky", Js.str "9.0.0")])
    , ("description", Js.str "d")
    , ("version", Js.str "0.1.0")
    , ("author", Js.str "me")
    , ("license", Js.str "MIT")
    , ("private", Js.bool true)
    , ("main", Js.str "src/index.ts")
    , ("keywords", Js.arr [])
    ] (by rfl)

/-! ## Helper lemmas: cleanup rules, removal and path coverage -/

theorem lookupKey_filter_of_key_true {α : Type} {q : String} {pred : (String × α) → Bool}
    (fs : List (String × α)) (hp : ∀ v, pred (q, v) = true) :
    lookupKey q (fs.filter pred) = lookupKey q fs := by
  induction fs with
  | nil => rfl
  | cons e rest ih =>
      obtain ⟨k', v'⟩ := e
      rw [List.filter_cons]
      by_cases hk : k' = q
      · subst hk
        rw [hp v']
        simp [lookupKey]
      · cases hpe : pred (k', v') <;> simp [lookupKey, hk, ih]

theorem lookup_removeFiles_of_not_covered {ps : List String} {q : String} (fs : FS)
    (h : ∀ p ∈ ps, covered p q = false) :
    lookupKey q (removeFiles ps fs) = lookupKey q fs := by
  rw [removeFiles_eq_filter]
  refine lookupKey_filter_of_key_true fs ?_
  intro v
  have : ps.any (fun p => covered p q) = false := List.any_eq_false.mpr (by
    intro p hp
    rw [h p hp]
    exact Bool.false_ne_true)
  simp [this]

theorem lookup_editJsonFile_ne {path k q : String} {fs fs2 : FS}
    (h : editJsonFile path k fs = .ok fs2) (hq : q ≠ path) :
    lookupKey q fs2 = lookupKey q fs := by
  unfold editJsonFile at h
  split at h
  · cases h
    rfl
  · cases h
    exact lookup_setKey_ne hq _ fs
  · cases h
    exact lookup_setKey_ne hq _ fs
  · cases h

theorem cleanLintStaged_preserves {sel : List String} {fs fs2 : FS} {q : String}
    (h : cleanLintStaged sel fs = .ok fs2) (hq : q ≠ ".lintstagedrc") :
    lookupKey q fs2 = lookupKey q fs := by
  unfold cleanLintStaged at h
  split at h
  · exact lookup_editJsonFile_ne h hq
  · cases h
    rfl

theorem cleanVscodeMarkdown_preserves {sel : List String} {fs fs2 : FS} {q : String}
    (h : cleanVscodeMarkdown sel fs = .ok fs2) (hq : q ≠ ".vscode/settings.json") :
    lookupKey q fs2 = lookupKey q fs := by
  unfold cleanVscodeMarkdown at h
  split at h
  · exact lookup_editJsonFile_ne h hq
  · cases h
    rfl

theorem cleanVscodeCi_preserves {sel : List String} {fs fs2 : FS} {q : String}
    (h : cleanVscodeCi sel fs = .ok fs2) (hq : q ≠ ".vscode/settings.json") :
    lookupKey q fs2 = lookupKey q fs := by
  unfold cleanVscodeCi at h
  split at h
  · exact lookup_editJsonFile_ne h hq
  · cases h
    rfl

theorem cleanCiWorkflow_preserves {sel : List String} {fs fs2 : FS} {q : String}
    (h : cleanCiWorkflow sel fs = .ok fs2) (hq : q ≠ ".github/workflows/ci.yml") :
    lookupKey q fs2 = lookupKey q fs := by
  unfold cleanCiWorkflow at h
  split at h
  · split at h
    · cases h
      rfl
    · cases h
      exact lookup_setKey_ne hq _ fs
    · cases h
      exact lookup_setKey_ne hq _ fs
  · cases h
    rfl

/-- When markdownlint is deselected, gitHooks kept, and `.lintstagedrc`
holds a JSON object, rule 1 rewrites exactly that file, deleting `"*.md"`. -/
theorem cleanLintStaged_fires {sel : List String} {fs : FS} {m : List (String × Js)}
    (hg : sel.contains "gitHooks" = true) (hm : sel.contains "markdownlint" = false)
    (hls : lookupKey ".lintstagedrc" fs = some (.json (.obj m))) :
    cleanLintStaged sel fs
      = .ok (setFile ".lintstagedrc" (.json (.obj (delKey "*.md" m))) fs) := by
  unfold cleanLintStaged
  have hcond : (!sel.contains "markdownlint" && sel.contains "gitHooks") = true := by
    rw [hm, hg]
    rfl
  rw [if_pos hcond]
  unfold editJsonFile
  rw [hls]

/-- No path queued for removal under a selection keeping `gitHooks` reaches
`.lintstagedrc`. -/
theorem lintstagedrc_not_covered {sel : List String}
    (hg : sel.contains "gitHooks" = true) :
    ∀ p ∈ resolveFilesToRemove sel, covered p ".lintstagedrc" = false := by
  intro p hp
  rcases mem_resolveFilesToRemove.mp hp with ⟨k, hk, hksel, hpk⟩ | ⟨rfl, _, _⟩
  · have hne : k ≠ "gitHooks" := by
      intro h
      rw [h, hg] at hksel
      cases hksel
    exact (by decide :
      ∀ k ∈ featureKeys, k ≠ "gitHooks" →
        ∀ p ∈ (getFeature k).files, covered p ".lintstagedrc" = false) k hk hne p hpk
  · decide

/-- No path queued for removal ever reaches `.vscode/settings.json`. -/
theorem vscode_not_covered (sel : List String) :
    ∀ p ∈ resolveFilesToRemove sel, covered p ".vscode/settings.json" = false := by
  intro p hp
  rcases mem_resolveFilesToRemove.mp hp with ⟨k, hk, _, hpk⟩ | ⟨rfl, _, _⟩
  · exact (by decide :
      ∀ k ∈ featureKeys, ∀ p ∈ (getFeature k).files,
        covered p ".vscode/settings.json" = false) k hk p hpk
  · decide

/-- No path queued for removal under a selection keeping `githubCI` reaches
`.github/workflows/ci.yml`. -/
theorem ciyml_not_covered {sel : List String}
    (hci : sel.contains "githubCI" = true) :
    ∀ p ∈ resolveFilesToRemove sel, covered p ".github/workflows/ci.yml" = false := by
  intro p hp
  rcases mem_resolveFilesToRemove.mp hp with ⟨k, hk, hksel, hpk⟩ | ⟨rfl, _, h2⟩
  · have hne : k ≠ "githubCI" := by
      intro h
      rw [h, hci] at hksel
      cases hksel
    exact (by decide :
      ∀ k ∈ featureKeys, k ≠ "githubCI" →
        ∀ p ∈ (getFeature k).files,
          covered p ".github/workflows/ci.yml" = false) k hk hne p hpk
  · rw [hci] at h2
    cases h2

theorem lookup_setFile_ne {q p : String} (h : q ≠ p) (d : FileData) (fs : FS) :
    lookupKey q (setFile p d fs) = lookupKey q fs :=
  lookup_setKey_ne h d fs

theorem lookup_setFile_self (p : String) (d : FileData) (fs : FS) :
    lookupKey p (setFile p d fs) = some d :=
  lookup_setKey_self p d fs

/-! ## C4: lint-staged cleanup -/

/-- C4: under a selection keeping `gitHooks` and dropping `markdownlint`,
when `.lintstagedrc` exists (as a JSON object), a successful run leaves the
file in place with exactly its `"*.md"` entry deleted and every other entry
unchanged. -/
theorem lintstaged_markdown_cleanup (name : String) (a : AnswerSet) (fs fs2 : FS)
    (m : List (String × Js))
    (hg : a.selectedFeatures.contains "gitHooks" = true)
    (hm : a.selectedFeatures.contains "markdownlint" = false)
    (hls : lookupKey ".lintstagedrc" fs = some (.json (.obj m)))
    (hrun : runPipeline name a fs = (.succeeded, fs2)) :
    lookupKey ".lintstagedrc" fs2 = some (.json (.obj (delKey "*.md" m))) := by
  unfold runPipeline at hrun
  cases hpkg : lookupKey "package.json" fs with
  | none => simp [hpkg] at hrun
  | some v =>
    cases v with
    | text s => simp [hpkg] at hrun
    | json j =>
      cases j with
      | null => simp [hpkg] at hrun
      | bool b => simp [hpkg] at hrun
      | num n => simp [hpkg] at hrun
      | str s => simp [hpkg] at hrun
      | arr xs => simp [hpkg] at hrun
      | obj pkg =>
        simp only [hpkg] at hrun
        cases h1 : cleanLintStaged a.selectedFeatures fs with
        | error e => simp [h1] at hrun
        | ok fsB =>
          simp only [h1] at hrun
          cases h2 : cleanVscodeMarkdown a.selectedFeatures fsB with
          | error e => simp [h2] at hrun
          | ok fsC =>
            simp only [h2] at hrun
            cases h3 : cleanCiWorkflow a.selectedFeatures fsC with
            | error e => simp [h3] at hrun
            | ok fsD =>
              simp only [h3] at hrun
              cases h4 : cleanVscodeCi a.selectedFeatures fsD with
              | error e => simp [h4] at hrun
              | ok fsE =>
                simp only [h4] at hrun
                have hfs2 := (congrArg Prod.snd hrun).symm
                simp only at hfs2
                -- value of `.lintstagedrc` after rule 1
                have hB : lookupKey ".lintstagedrc" fsB
                    = some (.json (.obj (delKey "*.md" m))) := by
                  have hfire := cleanLintStaged_fires hg hm hls
                  rw [h1] at hfire
                  cases hfire
                  exact lookup_setKey_self _ _ fs
                -- rules 2–4 touch other files
                have hC : lookupKey ".lintstagedrc" fsC
                    = some (.json (.obj (delKey "*.md" m))) := by
                  rw [cleanVscodeMarkdown_preserves h2 (by decide)]
                  exact hB
                have hD : lookupKey ".lintstagedrc" fsD
                    = some (.json (.obj (delKey "*.md" m))) := by
                  rw [cleanCiWorkflow_preserves h3 (by decide)]
                  exact hC
                have hE : lookupKey ".lintstagedrc" fsE
                    = some (.json (.obj (delKey "*.md" m))) := by
                  rw [cleanVscodeCi_preserves h4 (by decide)]
                  exact hD
                -- the removal and write phase
                rw [hfs2]
                split
                · rw [lookup_removeFiles_of_not_covered _ (by
                    intro p hp
                    simp only [List.mem_singleton] at hp
                    subst hp
                    decide)]
                  rw [lookup_setFile_ne (by decide) _ _,
                      lookup_removeFiles_of_not_covered _ (by
                        intro p hp
                        simp only [List.mem_singleton] at hp
                        subst hp
                        decide),
                      lookup_setFile_ne (by decide) _ _,
                      lookup_removeFiles_of_not_covered _ (lintstagedrc_not_covered hg)]
                  exact hE
                · rw [lookup_setFile_ne (by decide) _ _,
                      lookup_removeFiles_of_not_covered _ (by
                        intro p hp
                        simp only [List.mem_singleton] at hp
                        subst hp
                        decide),
                      lookup_setFile_ne (by decide) _ _,
                      lookup_removeFiles_of_not_covered _ (lintstagedrc_not_covered hg)]
                  exact hE

/-- C4 witness: a concrete successful run strips exactly the `"*.md"` entry
of `.lintstagedrc` and keeps the file with its other entry. -/
theorem lintstaged_markdown_cleanup_witness :
    lookupKey ".lintstagedrc" (runPipeline "p" aLintW fsLintW).2
      = some (.json (.obj [("*.ts", Js.str "biome check")])) :=
  lintstaged_markdown_cleanup "p" aLintW fsLintW (runPipeline "p" aLintW fsLintW).2
    [("*.md", Js.str "markdownlint"), ("*.ts", Js.str "biome check")]
    (by rfl) (by rfl) (by rfl) (by rfl)

/-! ## C10: cleanup rules never edit removed files -/

/-- C10: whenever a cleanup rule's guard holds, no path queued for removal
under the same selection is (or contains) the file that rule edits: the
lint-staged edit is guarded on `gitHooks` being selected, the ci.yml edit on
`githubCI` being selected, and the editor-settings file belongs to no
feature's file list. -/
theorem cleanup_rules_never_edit_removed (sel : List String)
    (g : List String → Bool) (p : String)
    (hr : (g, p) ∈ cleanupEditRules) (hg : g sel = true) :
    (∀ q ∈ resolveFilesToRemove sel, covered q p = false)
    ∧ (p = ".lintstagedrc" → sel.contains "gitHooks" = true)
    ∧ (p = ".github/workflows/ci.yml" → sel.contains "githubCI" = true)
    ∧ (∀ k ∈ featureKeys, ".vscode/settings.json" ∉ (getFeature k).files) := by
  have hvs : ∀ k ∈ featureKeys, ".vscode/settings.json" ∉ (getFeature k).files := by decide
  simp only [cleanupEditRules, List.mem_cons, List.not_mem_nil, or_false] at hr
  rcases hr with hr | hr | hr | hr <;>
    (injection hr with hgf hpf; subst hgf; subst hpf)
  · have hgh : sel.contains "gitHooks" = true := ((Bool.and_eq_true _ _).mp hg).2
    exact ⟨lintstagedrc_not_covered hgh, fun _ => hgh,
      fun hp => absurd hp (by decide), hvs⟩
  · exact ⟨vscode_not_covered sel, fun hp => absurd hp (by decide),
      fun hp => absurd hp (by decide), hvs⟩
  · have hci : sel.contains "githubCI" = true := ((Bool.and_eq_true _ _).mp hg).2
    exact ⟨ciyml_not_covered hci, fun hp => absurd hp (by decide),
      fun _ => hci, hvs⟩
  · exact ⟨vscode_not_covered sel, fun hp => absurd hp (by decide),
      fun hp => absurd hp (by decide), hvs⟩

/-- C10 witness: the lint-staged rule under the selection keeping exactly
`gitHooks`. -/
theorem cleanup_rules_never_edit_removed_witness :
    (∀ q ∈ resolveFilesToRemove ["gitHooks"], covered q ".lintstagedrc" = false)
    ∧ (".lintstagedrc" = ".lintstagedrc" →
        (["gitHooks"] : List String).contains "gitHooks" = true)
    ∧ (".lintstagedrc" = ".github/workflows/ci.yml" →
        (["gitHooks"] : List String).contains "githubCI" = true)
    ∧ (∀ k ∈ featureKeys, ".vscode/settings.json" ∉ (getFeature k).files) :=
  cleanup_rules_never_edit_removed ["gitHooks"]
    (fun sel => !sel.contains "markdownlint" && sel.contains "gitHooks") ".lintstagedrc"
    (List.Mem.head _) (by rfl)

end TsTemplate
